import Mathlib

/-!
Verification development for the recostseg repository: a build-time
JSON-LD schema validator (`validate-schemas` script) and a browser
schema loader (`loader.js`).  All definitions are shallow embeddings of
the JavaScript source; JSON values are modelled by an inductive type,
strings by Lean strings (lists of characters at the proof level), and
ambient browser state (location, DOM meta elements, clock readings) by
an explicit environment record.
-/

set_option maxRecDepth 10000

namespace Recostseg

/-- JSON values as produced by JSON.parse in the JavaScript runtime.
Numbers are restricted to integers: no document handled by either
pipeline of this repository contains a fractional or exponent-form
number, and no claim depends on one. -/
inductive Json where
  | str (s : String)
  | num (n : Int)
  | bool (b : Bool)
  | null
  | arr (elems : List Json)
  | obj (fields : List (String × Json))
  deriving Repr

/-- Field lookup on a JSON value: the value stored under key `k` when
the value is an object that binds `k`, otherwise none.  (JSON.parse
already collapses duplicate keys, so first-match lookup agrees with the
runtime on every parsed document.) -/
def Json.getField : Json → String → Option Json
  | .obj fields, k => fields.lookup k
  | _, _ => none

/-! ## Validator (validate-schemas script)

The script compiles the JSON-Schema object `schemaOrgValidation` with
Ajv (`allErrors: true`) and runs it on every parsed document:

* the type keyword (object) — the document must be a JSON object;
* the required keyword — an object must bind the context key
  (per JSON Schema, `required` applies only to objects);
* the context property: `oneOf [const "https://schema.org",
  const "http://schema.org"]` — when present, `@context` must equal one
  of the two canonical strings;
* the type property — when present, a string;
* the graph property — when present, an array.

Ajv with `allErrors` collects every violation instead of stopping at
the first. -/

/-- The validation error taxonomy of the script: the four shape errors
Ajv can emit for `schemaOrgValidation`, plus the parse failure caught
in `validateSchemas`. -/
inductive VErr where
  | notObject
  | missingContext
  | badContext
  | typeNotString
  | graphNotArray
  | invalidJson
  deriving DecidableEq, Repr

/-- The required keyword of the schema: the context key must be bound. -/
def requiredContext (fields : List (String × Json)) : List VErr :=
  match fields.lookup "@context" with
  | none => [VErr.missingContext]
  | some _ => []

/-- The context property of the schema: when present, the value must
be exactly one of the two canonical constant strings. -/
def contextValueCheck (fields : List (String × Json)) : List VErr :=
  match fields.lookup "@context" with
  | none => []
  | some (.str s) =>
      if s = "https://schema.org" ∨ s = "http://schema.org" then []
      else [VErr.badContext]
  | some _ => [VErr.badContext]

/-- The type property of the schema: when present, a string. -/
def typeCheck (fields : List (String × Json)) : List VErr :=
  match fields.lookup "@type" with
  | none => []
  | some (.str _) => []
  | some _ => [VErr.typeNotString]

/-- The graph property of the schema: when present, an array. -/
def graphCheck (fields : List (String × Json)) : List VErr :=
  match fields.lookup "@graph" with
  | none => []
  | some (.arr _) => []
  | some _ => [VErr.graphNotArray]

/-- The compiled `schemaOrgValidation` check: the ordered list of
violations Ajv reports for a parsed document (empty means valid). -/
def validate (j : Json) : List VErr :=
  match j with
  | .obj fields =>
      requiredContext fields ++ contextValueCheck fields ++
        typeCheck fields ++ graphCheck fields
  | _ => [VErr.notObject]

/-- Per-file validation outcome: filename, the boolean Ajv verdict, and
the reported errors. -/
structure FileResult where
  file : String
  valid : Bool
  errors : List VErr
  deriving DecidableEq, Repr

/-! ## Path Resolver (loader.js, getSchemaFile) -/

/-- Boolean prefix test on character lists (the effect of testing an
anchored regular expression such as the pattern for blog posts, which
matches exactly the strings starting with the literal "/post/"). -/
def isPre : List Char → List Char → Bool
  | [], _ => true
  | _ :: _, [] => false
  | p :: ps, c :: cs => p == c && isPre ps cs

/-- The exact-match table SCHEMA_MAP of loader.js, in declaration
order. -/
def SCHEMA_MAP : List (String × String) :=
  [("/", "homepage.json"),
   ("/index", "homepage.json"),
   ("/services", "services.json"),
   ("/services/rapid-report", "rapid-report.json"),
   ("/services/engineered-study", "engineered-study.json"),
   ("/free-proposal", "free-proposal.json"),
   ("/faq", "faq.json"),
   ("/resources", "resources.json"),
   ("/contact", "contact.json"),
   ("/about", "about.json")]

/-- The ordered pattern table PATTERN_MAP of loader.js.  Each source
pattern is an anchored literal-prefix regular expression, so a rule is
represented by the literal prefix it requires. -/
def PATTERN_MAP : List (String × String) :=
  [("/post/", "blog-post.json"),
   ("/case-study/", "case-study.json"),
   ("/state/", "location.json")]

/-- The effect of the JavaScript expression replacing the regular
expression of one trailing slash by the empty string: drop the final
character when it is a slash, otherwise leave the string unchanged. -/
def stripOneTrailingSlash (p : String) : String :=
  match p.data.getLast? with
  | some '/' => String.mk p.data.dropLast
  | _ => p

/-- Normalization performed at the top of getSchemaFile: strip one
trailing slash and map the (falsy) empty result to the root path. -/
def normalizePath (p : String) : String :=
  let s := stripOneTrailingSlash p
  if s.data = [] then "/" else s

/-- getSchemaFile of loader.js: normalize the pathname, try the
exact-match table, then the pattern rules in order, then the default
filename. -/
def getSchemaFile (pathname : String) : String :=
  let path := normalizePath pathname
  match SCHEMA_MAP.lookup path with
  | some f => f
  | none =>
    match PATTERN_MAP.find? (fun r => isPre r.1.data path.data) with
    | some r => r.2
    | none => "default.json"

/-- Resolution as worded by the specification (claim side): normalize
by stripping exactly one trailing slash with the empty result mapped to
the root symbol, return the exact-match table entry if one exists,
otherwise the filename of the first matching pattern rule in declared
order, otherwise the fixed default filename. -/
def resolveSpec (pathname : String) : String :=
  let path := normalizePath pathname
  ((SCHEMA_MAP.lookup path).orElse fun _ =>
      (PATTERN_MAP.find? fun r => isPre r.1.data path.data).map Prod.snd).getD
    "default.json"

/-! ## Remote URL builder (loader.js, buildSchemaUrl) -/

def CONFIG_githubRepo : String := "Joao-Aquino/recostseg-schemas"

def CONFIG_branch : String := "main"

def CONFIG_cdnUrl : String := "https://cdn.jsdelivr.net/gh/"

/-- CONFIG.cacheTime: one hour, in seconds. -/
def CONFIG_cacheTime : Nat := 3600

/-- Decimal digits of a positive natural number, least significant
first, computed with explicit fuel (any fuel at least the number
suffices). -/
def natToDigitsRev (fuel n : Nat) : List Char :=
  match fuel with
  | 0 => []
  | fuel + 1 => if n = 0 then [] else Nat.digitChar (n % 10) :: natToDigitsRev fuel (n / 10)

/-- Decimal digits of a natural number, most significant first (the
JavaScript rendering of a nonnegative integer below 2^53 in a template
literal). -/
def natRenderChars (n : Nat) : List Char :=
  if n = 0 then ['0'] else (natToDigitsRev (n + 1) n).reverse

/-- Decimal rendering of a natural number as a string. -/
def natRender (n : Nat) : String := String.mk (natRenderChars n)

/-- buildSchemaUrl of loader.js.  `nowMs` is the ambient Date.now()
reading in milliseconds; the cache bucket is the integer quotient by
the cache window CONFIG.cacheTime * 1000. -/
def buildSchemaUrl (nowMs : Nat) (filename : String) : String :=
  let timestamp := nowMs / (CONFIG_cacheTime * 1000)
  CONFIG_cdnUrl ++ CONFIG_githubRepo ++ "@" ++ CONFIG_branch ++ "/schemas/" ++
    filename ++ "?t=" ++ natRender timestamp

/-! ## JSON serialization (JSON.stringify of the runtime, compact form)

The serializer and the parser below model the JavaScript runtime
primitives used by loader.js and the validator script.  The parser is
written with an explicit fuel argument (structural recursion on fuel),
so that every evaluation reduces inside the kernel; the fuel supplied
by the public wrapper is always sufficient. -/

/-- The JSON.stringify escaping of a single character inside a string
literal: quote and backslash are backslash-escaped, the named control
characters use their short escapes, remaining control characters use a
four-digit hexadecimal escape, and every other character is emitted
verbatim. -/
def escapeJsonChar (c : Char) : List Char :=
  if c = '"' then ['\\', '"']
  else if c = '\\' then ['\\', '\\']
  else if c = '\x08' then ['\\', 'b']
  else if c = '\x09' then ['\\', 't']
  else if c = '\x0a' then ['\\', 'n']
  else if c = '\x0c' then ['\\', 'f']
  else if c = '\x0d' then ['\\', 'r']
  else if c.toNat < 32 then
    ['\\', 'u', '0', '0', Nat.digitChar (c.toNat / 16), Nat.digitChar (c.toNat % 16)]
  else [c]

/-- A JSON string literal: quoted and escaped. -/
def escapeJsonString (s : String) : List Char :=
  '"' :: (s.data.map escapeJsonChar).flatten ++ ['"']

/-- JavaScript rendering of an integer. -/
def intRenderChars (i : Int) : List Char :=
  if i < 0 then '-' :: natRenderChars i.natAbs else natRenderChars i.natAbs

mutual

/-- Compact serializer for values. -/
def stringifyV : Json → List Char
  | .str s => escapeJsonString s
  | .num n => intRenderChars n
  | .bool true => ['t', 'r', 'u', 'e']
  | .bool false => ['f', 'a', 'l', 's', 'e']
  | .null => ['n', 'u', 'l', 'l']
  | .arr es => '[' :: (stringifyElems es ++ [']'])
  | .obj fs => '\x7b' :: (stringifyFields fs ++ ['\x7d'])

/-- Serializer for array elements (comma separated). -/
def stringifyElems : List Json → List Char
  | [] => []
  | [e] => stringifyV e
  | e :: e2 :: rest => stringifyV e ++ ',' :: stringifyElems (e2 :: rest)

/-- Serializer for object members (comma separated, each a quoted key,
a colon and a value). -/
def stringifyFields : List (String × Json) → List Char
  | [] => []
  | [(k, v)] => escapeJsonString k ++ ':' :: stringifyV v
  | (k, v) :: f2 :: rest =>
      escapeJsonString k ++ ':' :: stringifyV v ++ ',' :: stringifyFields (f2 :: rest)

end

/-- JSON.stringify (compact spacing) of a value, as a character
list. -/
def stringify (j : Json) : List Char := stringifyV j

/-! ## JSON parsing (JSON.parse of the runtime)

Restrictions kept from the data actually flowing through this
repository: numbers are signed decimal integers (no fraction or
exponent), and a hexadecimal escape must denote a Unicode scalar value
(no surrogate pairs).  No schema document or claim exercises either
form. -/

/-- JSON whitespace skipping: space, tab, line feed, carriage
return. -/
def skipWs : List Char → List Char
  | [] => []
  | c :: cs =>
    if c = ' ' ∨ c = '\x09' ∨ c = '\x0a' ∨ c = '\x0d' then skipWs cs else c :: cs

/-- Value of one hexadecimal digit. -/
def hexVal (c : Char) : Option Nat :=
  if '0' ≤ c ∧ c ≤ '9' then some (c.toNat - 48)
  else if 'a' ≤ c ∧ c ≤ 'f' then some (c.toNat - 87)
  else if 'A' ≤ c ∧ c ≤ 'F' then some (c.toNat - 55)
  else none

/-- Decimal digit test. -/
def isDigitChar (c : Char) : Bool := '0' ≤ c && c ≤ '9'

/-- Parse the body of a JSON string literal after its opening quote:
returns the decoded characters and the input remaining after the
closing quote.  Unescaped control characters and unterminated literals
are rejected, as JSON.parse rejects them.  The fuel (any amount beyond
the input length suffices) makes the recursion structural. -/
def parseStrAux : Nat → List Char → Option (List Char × List Char)
  | 0, _ => none
  | _ + 1, [] => none
  | fuel + 1, c :: cs =>
    if c = '"' then some ([], cs)
    else if c = '\\' then
      match cs with
      | '"' :: cs2 => (parseStrAux fuel cs2).map fun p => ('"' :: p.1, p.2)
      | '\\' :: cs2 => (parseStrAux fuel cs2).map fun p => ('\\' :: p.1, p.2)
      | '/' :: cs2 => (parseStrAux fuel cs2).map fun p => ('/' :: p.1, p.2)
      | 'b' :: cs2 => (parseStrAux fuel cs2).map fun p => ('\x08' :: p.1, p.2)
      | 'f' :: cs2 => (parseStrAux fuel cs2).map fun p => ('\x0c' :: p.1, p.2)
      | 'n' :: cs2 => (parseStrAux fuel cs2).map fun p => ('\x0a' :: p.1, p.2)
      | 'r' :: cs2 => (parseStrAux fuel cs2).map fun p => ('\x0d' :: p.1, p.2)
      | 't' :: cs2 => (parseStrAux fuel cs2).map fun p => ('\x09' :: p.1, p.2)
      | 'u' :: h1 :: h2 :: h3 :: h4 :: cs2 =>
        match hexVal h1, hexVal h2, hexVal h3, hexVal h4 with
        | some a, some b, some c, some d =>
          let n := ((a * 16 + b) * 16 + c) * 16 + d
          if h : n.isValidChar then
            (parseStrAux fuel cs2).map fun p => (Char.ofNatAux n h :: p.1, p.2)
          else none
        | _, _, _, _ => none
      | _ => none
    else if c.toNat < 32 then none
    else (parseStrAux fuel cs).map fun p => (c :: p.1, p.2)

/-- Split the leading run of decimal digits. -/
def takeDigits : List Char → List Char × List Char
  | [] => ([], [])
  | c :: cs =>
    if isDigitChar c then
      let p := takeDigits cs
      (c :: p.1, p.2)
    else ([], c :: cs)

/-- Numeric value of a list of decimal digits. -/
def digitsToNat (ds : List Char) : Nat :=
  ds.foldl (fun a c => a * 10 + (c.toNat - 48)) 0

/-- Parse a nonempty run of decimal digits as a natural number. -/
def parseNatNum (cs : List Char) : Option (Nat × List Char) :=
  let p := takeDigits cs
  if p.1 = [] then none else some (digitsToNat p.1, p.2)

mutual

/-- Fueled parser for one JSON value (leading whitespace allowed);
returns the value and the unconsumed remainder. -/
def parseV : Nat → List Char → Option (Json × List Char)
  | 0, _ => none
  | fuel + 1, cs =>
    match skipWs cs with
    | '\x7b' :: rest => parseObj fuel rest
    | '[' :: rest => parseArr fuel rest
    | '"' :: rest => (parseStrAux fuel rest).map fun p => (Json.str (String.mk p.1), p.2)
    | 't' :: 'r' :: 'u' :: 'e' :: rest => some (Json.bool true, rest)
    | 'f' :: 'a' :: 'l' :: 's' :: 'e' :: rest => some (Json.bool false, rest)
    | 'n' :: 'u' :: 'l' :: 'l' :: rest => some (Json.null, rest)
    | '-' :: rest => (parseNatNum rest).map fun p => (Json.num (-(p.1 : Int)), p.2)
    | c :: rest =>
      if isDigitChar c then
        (parseNatNum (c :: rest)).map fun p => (Json.num (p.1 : Int), p.2)
      else none
    | [] => none

/-- Fueled parser for an object after its opening brace. -/
def parseObj : Nat → List Char → Option (Json × List Char)
  | 0, _ => none
  | fuel + 1, cs =>
    match skipWs cs with
    | '\x7d' :: rest => some (Json.obj [], rest)
    | other => (parseMembers fuel other).map fun p => (Json.obj p.1, p.2)

/-- Fueled parser for a nonempty member list, consuming the closing
brace: a quoted key followed by the member tail. -/
def parseMembers : Nat → List Char → Option (List (String × Json) × List Char)
  | 0, _ => none
  | fuel + 1, cs =>
    match skipWs cs with
    | '"' :: rest => (parseStrAux fuel rest).bind fun p => memberTail fuel p.1 p.2
    | _ => none

/-- After the key of a member: a colon, the value, then the member
continuation. -/
def memberTail : Nat → List Char → List Char → Option (List (String × Json) × List Char)
  | 0, _, _ => none
  | fuel + 1, key, afterKey =>
    match skipWs afterKey with
    | ':' :: afterColon => (parseV fuel afterColon).bind fun q => memberCont fuel key q.1 q.2
    | _ => none

/-- After the value of a member: a comma and further members, or the closing
brace. -/
def memberCont : Nat → List Char → Json → List Char → Option (List (String × Json) × List Char)
  | 0, _, _, _ => none
  | fuel + 1, key, v, afterVal =>
    match skipWs afterVal with
    | ',' :: afterComma =>
      (parseMembers fuel afterComma).map fun p => ((String.mk key, v) :: p.1, p.2)
    | '\x7d' :: rest2 => some ([(String.mk key, v)], rest2)
    | _ => none

/-- Fueled parser for an array after its opening bracket. -/
def parseArr : Nat → List Char → Option (Json × List Char)
  | 0, _ => none
  | fuel + 1, cs =>
    match skipWs cs with
    | ']' :: rest => some (Json.arr [], rest)
    | other => (parseElems fuel other).map fun p => (Json.arr p.1, p.2)

/-- Fueled parser for a nonempty element list, consuming the closing
bracket. -/
def parseElems : Nat → List Char → Option (List Json × List Char)
  | 0, _ => none
  | fuel + 1, cs => (parseV fuel cs).bind fun q => elemCont fuel q.1 q.2

/-- After an array element: a comma and further elements, or the
closing bracket. -/
def elemCont : Nat → Json → List Char → Option (List Json × List Char)
  | 0, _, _ => none
  | fuel + 1, v, afterVal =>
    match skipWs afterVal with
    | ',' :: afterComma => (parseElems fuel afterComma).map fun p => (v :: p.1, p.2)
    | ']' :: rest2 => some ([v], rest2)
    | _ => none

end

/-- JSON.parse: parse a complete document, allowing trailing
whitespace only.  None models a thrown SyntaxError.  The fuel is an
ample bound on the steps a parse of the input can take. -/
def jsonParse (s : String) : Option Json :=
  match parseV (4 * s.data.length + 8) s.data with
  | some (j, rest) => if skipWs rest = [] then some j else none
  | none => none

/-! ## Global string replacement (String.prototype.replace with a
global literal regular expression)

processSchema replaces each placeholder with
schemaString.replace(new RegExp(key, 'g'), value).  Every key is a
literal pattern (braces not forming quantifiers are literal characters
and the tokens contain no other metacharacter), so matching is literal
substring matching, scanning the original string left to right without
rescanning replaced output.  The replacement VALUE, however, is a
JavaScript replacement string: ECMAScript GetSubstitution interprets a
dollar followed by dollar, ampersand, backquote or quote; with no
capture groups in the pattern, every other dollar sequence is emitted
literally. -/

/-- ECMAScript GetSubstitution for a pattern with no capture groups:
`matched` is the matched substring, `before` the part of the original
string before the match, `after` the part after it, and the final
argument the replacement template being scanned. -/
def getSubstitution (matched before after : List Char) : List Char → List Char
  | [] => []
  | c :: rest =>
    if c = '$' then
      match rest with
      | [] => ['$']
      | c2 :: rest2 =>
        if c2 = '$' then '$' :: getSubstitution matched before after rest2
        else if c2 = '&' then matched ++ getSubstitution matched before after rest2
        else if c2 = Char.ofNat 96 then before ++ getSubstitution matched before after rest2
        else if c2 = '\'' then after ++ getSubstitution matched before after rest2
        else '$' :: c2 :: getSubstitution matched before after rest2
    else c :: getSubstitution matched before after rest

/-- Fueled scan of a global replace: `before` accumulates the original
characters already passed (the portion GetSubstitution sees before a
match), `rest` is the input still to scan.  The fuel supplied by
`replaceGlobal` always exceeds the number of steps. -/
def replaceGAux (pat repl : List Char) : Nat → List Char → List Char → List Char
  | 0, _, rest => rest
  | fuel + 1, before, rest =>
    match rest with
    | [] => []
    | c :: cs =>
      if isPre pat rest then
        getSubstitution pat before (rest.drop pat.length) repl ++
          replaceGAux pat repl fuel (before ++ pat) (rest.drop pat.length)
      else c :: replaceGAux pat repl fuel (before ++ [c]) cs

/-- Global regular-expression replace with a literal pattern and
JavaScript replacement-string semantics.  The placeholder patterns of
loader.js are never empty; the empty pattern is mapped to the identity
here and never used. -/
def replaceGlobal (s pat repl : List Char) : List Char :=
  if pat = [] then s else replaceGAux pat repl (s.length + 1) [] s

/-- Literal global replacement as worded by the specification (claim
side): every occurrence of the pattern is replaced by the replacement
text inserted verbatim. -/
def replaceLitAux (pat repl : List Char) : Nat → List Char → List Char
  | 0, rest => rest
  | fuel + 1, rest =>
    match rest with
    | [] => []
    | c :: cs =>
      if isPre pat rest then repl ++ replaceLitAux pat repl fuel (rest.drop pat.length)
      else c :: replaceLitAux pat repl fuel cs

/-- Literal global replacement (claim side wrapper). -/
def replaceLit (s pat repl : List Char) : List Char :=
  if pat = [] then s else replaceLitAux pat repl (s.length + 1) s

/-- Substring occurrence test. -/
def hasSubstr (pat : List Char) : List Char → Bool
  | [] => isPre pat []
  | c :: cs => isPre pat (c :: cs) || hasSubstr pat cs

/-! ## Ambient browser environment and page metadata (loader.js)

Each field of `Env` is one ambient read performed by loader.js:
window.location.pathname (getSchemaFile), window.location.href,
document.title, the description / og:image / article:published_time /
author meta elements, document.documentElement.lang, Date.now()
(buildSchemaUrl), the Date().toISOString() read of getPageMetadata,
and the separate Date().getFullYear() read of processSchema.  The two
clock reads are distinct fields because the source constructs two
distinct Date objects. -/

structure Env where
  pathname : String
  href : String
  title : String
  metaDescription : Option String
  ogImage : Option String
  publishedTime : Option String
  metaAuthor : Option String
  lang : String
  nowMs : Nat
  nowISO : String
  nowYear : Nat
  deriving Repr

/-- The flat metadata record returned by getPageMetadata. -/
structure PageMetadata where
  url : String
  title : String
  description : String
  image : String
  published : String
  modified : String
  author : String
  lang : String
  deriving DecidableEq, Repr

/-- getPageMetadata of loader.js.  A missing meta element reads as the
empty string; a falsy (empty) author or language falls back to the
hardcoded defaults. -/
def getPageMetadata (env : Env) : PageMetadata where
  url := env.href
  title := env.title
  description := env.metaDescription.getD ""
  image := env.ogImage.getD ""
  published := env.publishedTime.getD ""
  modified := env.nowISO
  author :=
    let a := env.metaAuthor.getD ""
    if a = "" then "RE Cost Seg" else a
  lang := if env.lang = "" then "en-US" else env.lang

/-- The replacements table of processSchema, in the insertion order of
the object literal (the order Object.entries iterates).  The
PUBLISHED_DATE entry is metadata.published when truthy (nonempty),
otherwise metadata.modified. -/
def replacements (metadata : PageMetadata) (yearText : String) : List (String × String) :=
  [("\x7b\x7bCURRENT_URL\x7d\x7d", metadata.url),
   ("\x7b\x7bPAGE_TITLE\x7d\x7d", metadata.title),
   ("\x7b\x7bMETA_DESCRIPTION\x7d\x7d", metadata.description),
   ("\x7b\x7bOG_IMAGE\x7d\x7d", metadata.image),
   ("\x7b\x7bPUBLISHED_DATE\x7d\x7d",
     if metadata.published = "" then metadata.modified else metadata.published),
   ("\x7b\x7bMODIFIED_DATE\x7d\x7d", metadata.modified),
   ("\x7b\x7bAUTHOR\x7d\x7d", metadata.author),
   ("\x7b\x7bLANGUAGE\x7d\x7d", metadata.lang),
   ("\x7b\x7bYEAR\x7d\x7d", yearText)]

/-- Sequential application of all replacement entries, in table order,
as performed by the forEach loop of processSchema. -/
def applyReplacements (s : List Char) (reps : List (String × String)) : List Char :=
  reps.foldl (fun acc kv => replaceGlobal acc kv.1.data kv.2.data) s

/-- processSchema of loader.js: serialize the document, apply all
replacements in order, and reparse.  None models the SyntaxError
thrown by the final JSON.parse (caught by loadSchema). -/
def processSchema (env : Env) (schema : Json) : Option Json :=
  let metadata := getPageMetadata env
  let reps := replacements metadata (natRender env.nowYear)
  jsonParse (String.mk (applyReplacements (stringify schema) reps))

/-- Claim-side processing: identical pipeline, but with each metadata
value inserted as raw literal text, as the specification words it. -/
def rawProcessSchema (env : Env) (schema : Json) : Option Json :=
  let metadata := getPageMetadata env
  let reps := replacements metadata (natRender env.nowYear)
  jsonParse (String.mk
    (reps.foldl (fun acc kv => replaceLit acc kv.1.data kv.2.data) (stringify schema)))

/-! ## Injector and orchestrator (loader.js) -/

/-- One element of the page as far as the injector can observe it: a
script element carrying the marker attribute data-schema-loader set to
"recostseg" (with its MIME type and its structured-data content), or
any other element, untouched by the loader. -/
inductive HeadEl where
  | schemaScript (scriptType : String) (content : Json)
  | otherEl (descr : String)

/-- Does querySelectorAll with the marker selector match this
element? -/
def HeadEl.isMarked : HeadEl → Bool
  | .schemaScript _ _ => true
  | .otherEl _ => false

/-- injectSchema of loader.js: remove every marked element, then append
a fresh marked script of structured-data MIME type holding the new
document. -/
def injectSchema (page : List HeadEl) (schemaData : Json) : List HeadEl :=
  (page.filter fun el => !el.isMarked) ++
    [HeadEl.schemaScript "application/ld+json" schemaData]

/-- The hardcoded fallback organization document of loadSchema. -/
def fallbackSchema : Json :=
  .obj [("@context", .str "https://schema.org"),
        ("@type", .str "Organization"),
        ("name", .str "RE Cost Seg"),
        ("url", .str "https://www.recostseg.com"),
        ("telephone", .str "+1 (346) 214-6539")]

/-- Outcome of the fetch performed by loadSchema: a 2xx response whose
body is the given text, a non-2xx response (response.ok false), or a
transport failure (fetch rejected). -/
inductive FetchOutcome where
  | success (body : String)
  | httpError (status : Nat) (statusText : String)
  | networkFailure

/-- loadSchema of loader.js.  The fetch of buildSchemaUrl env.nowMs
(getSchemaFile env.pathname) is supplied as `response`.  Returns the
page after injection together with the schemaLoaded event payload
(filename and final document) dispatched on success; any failure —
non-2xx status, transport failure, response body that fails to parse,
or a processSchema parse failure — is caught and leads to injection of
the fallback document with no event dispatched. -/
def loadSchema (env : Env) (page : List HeadEl) (response : FetchOutcome) :
    List HeadEl × Option (String × Json) :=
  let schemaFile := getSchemaFile env.pathname
  match response with
  | .success body =>
    match jsonParse body with
    | some schemaData =>
      match processSchema env schemaData with
      | some processed => (injectSchema page processed, some (schemaFile, processed))
      | none => (injectSchema page fallbackSchema, none)
    | none => (injectSchema page fallbackSchema, none)
  | .httpError _ _ => (injectSchema page fallbackSchema, none)
  | .networkFailure => (injectSchema page fallbackSchema, none)

/-! ## Directory scan of the validator script -/

/-- Suffix test used for the filename filter. -/
def strEndsWith (s suf : String) : Bool :=
  isPre suf.data.reverse s.data.reverse

/-- Validation of the content of one file: a parse failure is caught and
reported as an invalid result with the parse-error message; a parsed
document is checked against the compiled rule set. -/
def validateFile (file content : String) : FileResult :=
  match jsonParse content with
  | some schema =>
    let errs := validate schema
    ⟨file, errs.isEmpty, errs⟩
  | none => ⟨file, false, [VErr.invalidJson]⟩

/-- validateSchemas of the validator script: filter the directory
listing to .json files, validate each in order, and exit with status 1
when any result is invalid, 0 otherwise.  `files` is the directory
listing as (filename, content) pairs. -/
def validateSchemas (files : List (String × String)) : List FileResult × Nat :=
  let selected := files.filter fun f => strEndsWith f.1 ".json"
  let results := selected.map fun f => validateFile f.1 f.2
  (results, if results.any fun r => !r.valid then 1 else 0)

/-! ## Claim-side predicates and sample data -/

/-- The shape described by the validation claim of the specification: the
top-level field at the context key is present and equals exactly one of
the two canonical Schema.org URIs, the type field is absent or a
string, and the graph field is absent or an array. -/
def claimGoodShape (j : Json) : Prop :=
  (j.getField "@context" = some (.str "https://schema.org") ∨
    j.getField "@context" = some (.str "http://schema.org")) ∧
  (j.getField "@type" = none ∨ ∃ s, j.getField "@type" = some (.str s)) ∧
  (j.getField "@graph" = none ∨ ∃ es, j.getField "@graph" = some (.arr es))

/-- A concrete environment: an ordinary page with no published-time
and no author meta element. -/
def sampleEnv : Env where
  pathname := "/about"
  href := "https://www.recostseg.com/about"
  title := "About Us"
  metaDescription := some "About the company"
  ogImage := none
  publishedTime := none
  metaAuthor := none
  lang := "en"
  nowMs := 1760140800000
  nowISO := "2026-10-11T00:00:00.000Z"
  nowYear := 2026

/-- The sample environment with a different pathname (a field
getPageMetadata does not read). -/
def sampleEnvAlt : Env :=
  { sampleEnv with pathname := "/contact" }

/-- Environment whose page title is the two-character dollar-dollar
string (a JavaScript replacement-string escape). -/
def dollarEnv : Env :=
  { sampleEnv with title := "$$" }

/-- A document whose single field holds the page-title placeholder
token. -/
def dollarDoc : Json :=
  .obj [("t", .str "\x7b\x7bPAGE_TITLE\x7d\x7d")]

/-- A document whose single field holds the year placeholder token. -/
def yearDoc : Json :=
  .obj [("copyrightYear", .str "\x7b\x7bYEAR\x7d\x7d")]

/-- The sample environment at an arbitrary direct getFullYear
reading. -/
def yearEnv (year : Nat) : Env :=
  { sampleEnv with nowYear := year }

/-- The sample environment at the neighbouring getFullYear reading:
the toISOString reading (hence the whole metadata record) is the same,
as happens when the two Date constructions of one run straddle a year
boundary, or read clocks in different local time zones. -/
def yearEnvEarlier : Env :=
  { sampleEnv with nowYear := 2025 }

/-! ## Helper lemmas -/

/-- After an injection, the marked elements of the page are exactly the
one freshly appended script holding the injected document. -/
theorem injectSchema_filter_marked (page : List HeadEl) (d : Json) :
    (injectSchema page d).filter (fun el => el.isMarked) =
      [HeadEl.schemaScript "application/ld+json" d] := by
  unfold injectSchema
  rw [List.filter_append]
  have h1 : (page.filter fun el => !el.isMarked).filter (fun el => el.isMarked) = [] := by
    induction page with
    | nil => rfl
    | cons e rest ih => cases he : e.isMarked <;> simp [List.filter_cons, he, ih]
  rw [h1]
  rfl

/-- The required keyword passes exactly when the context key is
bound. -/
theorem requiredContext_nil (fields : List (String × Json)) :
    requiredContext fields = [] ↔ ∃ v, fields.lookup "@context" = some v := by
  unfold requiredContext
  cases h : fields.lookup "@context" with
  | none => simp [h]
  | some v => simp [h]

/-- The context-value keyword passes exactly when the context key is
absent or bound to one of the two canonical strings. -/
theorem contextValueCheck_nil (fields : List (String × Json)) :
    contextValueCheck fields = [] ↔
      (fields.lookup "@context" = none ∨
       fields.lookup "@context" = some (.str "https://schema.org") ∨
       fields.lookup "@context" = some (.str "http://schema.org")) := by
  unfold contextValueCheck
  cases h : fields.lookup "@context" with
  | none => simp [h]
  | some v =>
    cases v with
    | str s =>
      by_cases hs : s = "https://schema.org" ∨ s = "http://schema.org"
      · rcases hs with hs | hs <;> subst hs <;> simp [h]
      · rw [not_or] at hs
        simp [h, hs.1, hs.2]
    | num n => simp [h]
    | bool b => simp [h]
    | null => simp [h]
    | arr es => simp [h]
    | obj fs => simp [h]

/-- The type keyword passes exactly when the type key is absent or
bound to a string. -/
theorem typeCheck_nil (fields : List (String × Json)) :
    typeCheck fields = [] ↔
      (fields.lookup "@type" = none ∨ ∃ s, fields.lookup "@type" = some (.str s)) := by
  unfold typeCheck
  cases h : fields.lookup "@type" with
  | none => simp [h]
  | some v => cases v <;> simp [h]

/-- The graph keyword passes exactly when the graph key is absent or
bound to an array. -/
theorem graphCheck_nil (fields : List (String × Json)) :
    graphCheck fields = [] ↔
      (fields.lookup "@graph" = none ∨ ∃ es, fields.lookup "@graph" = some (.arr es)) := by
  unfold graphCheck
  cases h : fields.lookup "@graph" with
  | none => simp [h]
  | some v => cases v <;> simp [h]

/-- The fueled digit extraction agrees with the little-endian digit
expansion whenever the fuel is sufficient. -/
theorem natToDigitsRev_eq :
    ∀ fuel n, n ≤ fuel → natToDigitsRev fuel n = (Nat.digits 10 n).map Nat.digitChar := by
  intro fuel
  induction fuel with
  | zero =>
    intro n hn
    interval_cases n
    simp [natToDigitsRev]
  | succ fuel ih =>
    intro n hn
    by_cases h0 : n = 0
    · subst h0
      simp [natToDigitsRev]
    · have hpos : 0 < n := Nat.pos_of_ne_zero h0
      have hdiv : n / 10 < n := Nat.div_lt_self hpos (by norm_num)
      rw [natToDigitsRev, if_neg h0, Nat.digits_def' (by norm_num : (1:Nat) < 10) hpos,
        List.map_cons, ih (n / 10) (by omega)]

/-- Digit characters of distinct decimal digits are distinct. -/
theorem digitChar_inj :
    ∀ d1 d2 : Nat, d1 < 10 → d2 < 10 → Nat.digitChar d1 = Nat.digitChar d2 → d1 = d2 := by
  intro d1 d2 h1 h2
  interval_cases d1 <;> interval_cases d2 <;> decide

/-- Mapping digitChar over lists of decimal digits is injective. -/
theorem map_digitChar_inj :
    ∀ xs ys : List Nat, (∀ x ∈ xs, x < 10) → (∀ y ∈ ys, y < 10) →
      xs.map Nat.digitChar = ys.map Nat.digitChar → xs = ys := by
  intro xs
  induction xs with
  | nil =>
    intro ys _ _ h
    cases ys with
    | nil => rfl
    | cons y ys => simp at h
  | cons x xs ih =>
    intro ys hx hy h
    cases ys with
    | nil => simp at h
    | cons y ys =>
      simp only [List.map_cons, List.cons.injEq] at h
      have hxy := digitChar_inj x y (hx x (by simp)) (hy y (by simp)) h.1
      subst hxy
      rw [ih ys (fun a ha => hx a (by simp [ha])) (fun a ha => hy a (by simp [ha])) h.2]

/-- Every character of the decimal rendering is a decimal digit. -/
theorem natRenderChars_digits (n : Nat) :
    ∀ c ∈ natRenderChars n, isDigitChar c = true := by
  intro c hc
  unfold natRenderChars at hc
  by_cases h0 : n = 0
  · subst h0
    simp at hc
    subst hc
    decide
  · rw [if_neg h0, natToDigitsRev_eq (n + 1) n (by omega), List.mem_reverse,
      List.mem_map] at hc
    obtain ⟨d, hd, rfl⟩ := hc
    have hlt : d < 10 := Nat.digits_lt_base (by norm_num) hd
    interval_cases d <;> decide

/-- The decimal rendering is injective. -/
theorem natRenderChars_inj :
    ∀ m n : Nat, natRenderChars m = natRenderChars n → m = n := by
  intro m n h
  unfold natRenderChars at h
  by_cases hm : m = 0 <;> by_cases hn : n = 0
  · omega
  · exfalso
    rw [if_pos hm, if_neg hn, natToDigitsRev_eq (n + 1) n (by omega)] at h
    have h2 : (Nat.digits 10 n).map Nat.digitChar = ['0'] := by
      rw [← List.reverse_reverse (List.map Nat.digitChar (Nat.digits 10 n)), ← h]
      rfl
    have h3 : Nat.digits 10 n = [0] := by
      apply map_digitChar_inj _ _ (fun d hd => Nat.digits_lt_base (by norm_num) hd)
        (by intro y hy; simp at hy; omega)
      simpa using h2
    have h4 := Nat.ofDigits_digits 10 n
    rw [h3] at h4
    simp [Nat.ofDigits] at h4
    omega
  · exfalso
    rw [if_pos hn, if_neg hm, natToDigitsRev_eq (m + 1) m (by omega)] at h
    have h2 : (Nat.digits 10 m).map Nat.digitChar = ['0'] := by
      rw [← List.reverse_reverse (List.map Nat.digitChar (Nat.digits 10 m)), h]
      rfl
    have h3 : Nat.digits 10 m = [0] := by
      apply map_digitChar_inj _ _ (fun d hd => Nat.digits_lt_base (by norm_num) hd)
        (by intro y hy; simp at hy; omega)
      simpa using h2
    have h4 := Nat.ofDigits_digits 10 m
    rw [h3] at h4
    simp [Nat.ofDigits] at h4
    omega
  · rw [if_neg hm, if_neg hn, natToDigitsRev_eq (m + 1) m (by omega),
      natToDigitsRev_eq (n + 1) n (by omega)] at h
    have h2 := List.reverse_injective h
    have h3 := map_digitChar_inj _ _ (fun d hd => Nat.digits_lt_base (by norm_num) hd)
      (fun d hd => Nat.digits_lt_base (by norm_num) hd) h2
    exact Nat.digits.injective 10 h3

/-! ## Claims -/

/-- C8: the remote fetch URL has the shape cdn-base, repo identifier,
at-sign, branch, the schemas directory, the filename, and a query
parameter holding the cache bucket (the millisecond clock integer
divided by the hour-long cache window); computations within one window
yield identical URLs, and computations in different windows yield
different URLs (their bucket digits differ). -/
theorem claim_C8 :
    (∀ (nowMs : Nat) (filename : String),
      buildSchemaUrl nowMs filename =
        "https://cdn.jsdelivr.net/gh/" ++ "Joao-Aquino/recostseg-schemas" ++ "@" ++
          "main" ++ "/schemas/" ++ filename ++ "?t=" ++
          natRender (nowMs / (3600 * 1000))) ∧
    (∀ (t1 t2 : Nat) (filename : String), t1 / (3600 * 1000) = t2 / (3600 * 1000) →
      buildSchemaUrl t1 filename = buildSchemaUrl t2 filename) ∧
    (∀ (t1 t2 : Nat) (filename : String), t1 / (3600 * 1000) ≠ t2 / (3600 * 1000) →
      buildSchemaUrl t1 filename ≠ buildSchemaUrl t2 filename) := by
  refine ⟨fun nowMs filename => rfl, fun t1 t2 filename h => ?_, fun t1 t2 filename h => ?_⟩
  · unfold buildSchemaUrl
    rw [show CONFIG_cacheTime * 1000 = 3600 * 1000 from rfl, h]
  · intro heq
    apply h
    unfold buildSchemaUrl at heq
    rw [show CONFIG_cacheTime * 1000 = 3600 * 1000 from rfl] at heq
    have hd := congrArg String.data heq
    simp only [String.data_append, List.append_assoc] at hd
    have h1 := List.append_cancel_left hd
    have h2 := List.append_cancel_left h1
    have h3 := List.append_cancel_left h2
    have h4 := List.append_cancel_left h3
    have h5 := List.append_cancel_left h4
    have h6 := List.append_cancel_left h5
    have h7 := List.append_cancel_left h6
    exact natRenderChars_inj _ _ h7

/-- Witness for C8 at two instants in the same window and one in the
next window. -/
theorem claim_C8_witness :
    buildSchemaUrl 1000 "services.json" = buildSchemaUrl 3599999 "services.json" ∧
    buildSchemaUrl 1000 "services.json" ≠ buildSchemaUrl 3600000 "services.json" :=
  ⟨claim_C8.2.1 1000 3599999 "services.json" (by decide),
    claim_C8.2.2 1000 3600000 "services.json" (by decide)⟩

/-- C1: a parsed document is reported valid exactly when its top-level
context field is present and equals one of the two canonical
Schema.org URIs, its type field is absent or a string, and its graph
field is absent or an array (no other field affects the verdict); and
an object missing the context key is reported with the
missing-context error. -/
theorem claim_C1 :
    ∀ j : Json,
      (validate j = [] ↔ claimGoodShape j) ∧
      (∀ fields, j = Json.obj fields → fields.lookup "@context" = none →
        VErr.missingContext ∈ validate j) := by
  intro j
  constructor
  · cases j with
    | obj fields =>
      simp only [validate, claimGoodShape, Json.getField, List.append_eq_nil,
        requiredContext_nil, contextValueCheck_nil, typeCheck_nil, graphCheck_nil]
      constructor
      · rintro ⟨⟨⟨⟨v, hv⟩, h2⟩, h3⟩, h4⟩
        refine ⟨?_, h3, h4⟩
        rcases h2 with h | h | h
        · rw [hv] at h
          exact absurd h (by simp)
        · exact Or.inl h
        · exact Or.inr h
      · rintro ⟨h1, h2, h3⟩
        rcases h1 with h | h
        · exact ⟨⟨⟨⟨_, h⟩, Or.inr (Or.inl h)⟩, h2⟩, h3⟩
        · exact ⟨⟨⟨⟨_, h⟩, Or.inr (Or.inr h)⟩, h2⟩, h3⟩
    | str s => simp [validate, claimGoodShape, Json.getField]
    | num n => simp [validate, claimGoodShape, Json.getField]
    | bool b => simp [validate, claimGoodShape, Json.getField]
    | null => simp [validate, claimGoodShape, Json.getField]
    | arr es => simp [validate, claimGoodShape, Json.getField]
  · rintro fields rfl hnone
    simp [validate, requiredContext, hnone]

/-- Witness for C1: a minimal valid document is accepted, and an object
without the context key is reported with the missing-context error. -/
theorem claim_C1_witness :
    validate (Json.obj [("@context", Json.str "https://schema.org")]) = [] ∧
    VErr.missingContext ∈ validate (Json.obj [("name", Json.str "x")]) :=
  ⟨(claim_C1 (Json.obj [("@context", Json.str "https://schema.org")])).1.mpr
      ⟨Or.inl rfl, Or.inl rfl, Or.inl rfl⟩,
    (claim_C1 (Json.obj [("name", Json.str "x")])).2 _ rfl rfl⟩

/-- C2: the Path Resolver normalizes its input by stripping exactly one
trailing slash (empty mapped to the root), then returns the exact-match
table entry if one exists, otherwise the filename of the first matching
pattern rule in declared order, otherwise the fixed default filename;
in particular both spellings of the services path resolve to the
services schema, a blog-post path resolves by pattern, and an unknown
path resolves to the default. -/
theorem claim_C2 :
    (∀ p : String, getSchemaFile p = resolveSpec p) ∧
    getSchemaFile "/services/" = "services.json" ∧
    getSchemaFile "/services" = "services.json" ∧
    getSchemaFile "/post/my-article" = "blog-post.json" ∧
    getSchemaFile "/unknown/path" = "default.json" := by
  refine ⟨fun p => ?_, rfl, rfl, rfl, rfl⟩
  simp only [getSchemaFile, resolveSpec]
  cases h1 : SCHEMA_MAP.lookup (normalizePath p) with
  | some f => simp [h1, Option.orElse]
  | none =>
    cases h2 : PATTERN_MAP.find? (fun r => isPre r.1.data (normalizePath p).data) with
    | some r => simp [h1, h2, Option.orElse]
    | none => simp [h1, h2, Option.orElse]

/-- C4: after any injection, and after two injections in sequence,
exactly one marked script element exists in the page, and its content
is the most recently injected document (all previously marked elements
having been removed). -/
theorem claim_C4 :
    (∀ (page : List HeadEl) (d : Json),
      (injectSchema page d).filter (fun el => el.isMarked) =
        [HeadEl.schemaScript "application/ld+json" d]) ∧
    (∀ (page : List HeadEl) (d1 d2 : Json),
      (injectSchema (injectSchema page d1) d2).filter (fun el => el.isMarked) =
        [HeadEl.schemaScript "application/ld+json" d2]) :=
  ⟨injectSchema_filter_marked, fun _ _ d2 => injectSchema_filter_marked _ d2⟩

/-- C6: when the fetch returns a non-2xx status or fails in transport,
loadSchema injects the hardcoded fallback organization document,
dispatches no success event (no failure surfaces), and leaves exactly
one marked script element in the page, holding the fallback
document. -/
theorem claim_C6 :
    ∀ (env : Env) (page : List HeadEl) (status : Nat) (statusText : String),
      loadSchema env page (.httpError status statusText) =
        (injectSchema page fallbackSchema, none) ∧
      loadSchema env page .networkFailure = (injectSchema page fallbackSchema, none) ∧
      ((loadSchema env page (.httpError status statusText)).1.filter
          (fun el => el.isMarked) =
        [HeadEl.schemaScript "application/ld+json" fallbackSchema]) ∧
      ((loadSchema env page .networkFailure).1.filter (fun el => el.isMarked) =
        [HeadEl.schemaScript "application/ld+json" fallbackSchema]) := by
  intro env page status statusText
  exact ⟨rfl, rfl, injectSchema_filter_marked _ _, injectSchema_filter_marked _ _⟩

/-- C10: the hardcoded fallback organization document satisfies the
rule set of the validator — its context field is the canonical secure URI,
its type field is a string, it has no graph field — and validating it
reports no error. -/
theorem claim_C10 :
    validate fallbackSchema = [] ∧
    fallbackSchema.getField "@context" = some (.str "https://schema.org") ∧
    (∃ s, fallbackSchema.getField "@type" = some (.str s)) ∧
    fallbackSchema.getField "@graph" = none :=
  ⟨rfl, rfl, ⟨"Organization", rfl⟩, rfl⟩

/-- C7 as stated is false: two runs on the same document with equal
metadata records can differ, because processSchema performs its own
clock read (getFullYear) for the year token, independent of the
metadata record.  The two environments here agree on every metadata
field (including the toISOString reading) and differ only in that
direct year reading. -/
theorem claim_C7_counterexample :
    getPageMetadata yearEnvEarlier = getPageMetadata sampleEnv ∧
    processSchema yearEnvEarlier yearDoc = some (.obj [("copyrightYear", .str "2025")]) ∧
    processSchema sampleEnv yearDoc = some (.obj [("copyrightYear", .str "2026")]) ∧
    processSchema yearEnvEarlier yearDoc ≠ processSchema sampleEnv yearDoc := by
  refine ⟨rfl, rfl, rfl, ?_⟩
  intro h
  rw [show processSchema yearEnvEarlier yearDoc =
        some (.obj [("copyrightYear", .str "2025")]) from rfl,
      show processSchema sampleEnv yearDoc =
        some (.obj [("copyrightYear", .str "2026")]) from rfl] at h
  simp at h

/-- C7 amended: the Template Processor reads ambient state itself (the
metadata extractor and a direct getFullYear clock read); it is pure
with respect to the document together with those readings: two runs on
the same document whose metadata records and direct year readings agree
produce equal outputs, whatever else (page URL, DOM elements) differs
between the environments. -/
theorem claim_C7_amended :
    ∀ (e1 e2 : Env) (d : Json), getPageMetadata e1 = getPageMetadata e2 →
      e1.nowYear = e2.nowYear → processSchema e1 d = processSchema e2 d := by
  intro e1 e2 d h1 h2
  unfold processSchema
  rw [h1, h2]

/-- Witness for the amended C7 at two concrete environments differing
in a field the processor never reads. -/
theorem claim_C7_amended_witness :
    processSchema sampleEnv fallbackSchema = processSchema sampleEnvAlt fallbackSchema :=
  claim_C7_amended sampleEnv sampleEnvAlt fallbackSchema rfl rfl

/-- C9: when the extracted published field is empty (no published-time
meta element, or an empty one), the PUBLISHED_DATE entry of the
replacements table is the modified timestamp (the toISOString
reading of the run) rather than the empty string, and it coincides with the
MODIFIED_DATE entry. -/
theorem claim_C9 :
    ∀ env : Env, (getPageMetadata env).published = "" →
      ((replacements (getPageMetadata env) (natRender env.nowYear)).lookup
          "\x7b\x7bPUBLISHED_DATE\x7d\x7d" = some (getPageMetadata env).modified) ∧
      ((replacements (getPageMetadata env) (natRender env.nowYear)).lookup
          "\x7b\x7bPUBLISHED_DATE\x7d\x7d" =
        (replacements (getPageMetadata env) (natRender env.nowYear)).lookup
          "\x7b\x7bMODIFIED_DATE\x7d\x7d") ∧
      (getPageMetadata env).modified = env.nowISO := by
  intro env h
  have h1 : (replacements (getPageMetadata env) (natRender env.nowYear)).lookup
      "\x7b\x7bPUBLISHED_DATE\x7d\x7d" =
      some (if (getPageMetadata env).published = "" then (getPageMetadata env).modified
        else (getPageMetadata env).published) := rfl
  have h2 : (replacements (getPageMetadata env) (natRender env.nowYear)).lookup
      "\x7b\x7bMODIFIED_DATE\x7d\x7d" = some (getPageMetadata env).modified := rfl
  rw [h1, h2, if_pos h]
  exact ⟨rfl, rfl, rfl⟩

/-- C5: a file whose content fails to parse yields an invalid result
with the parse-error message while every remaining file is still
processed, and the run exits with a nonzero status exactly when some
result is invalid (zero exactly when all are valid). -/
theorem claim_C5 :
    (∀ (pre : List (String × String)) (bad : String × String)
        (suf : List (String × String)),
      strEndsWith bad.1 ".json" = true → jsonParse bad.2 = none →
      validateSchemas (pre ++ bad :: suf) =
        ((pre.filter fun f => strEndsWith f.1 ".json").map
            (fun f => validateFile f.1 f.2) ++
          ⟨bad.1, false, [VErr.invalidJson]⟩ ::
            (suf.filter fun f => strEndsWith f.1 ".json").map
              (fun f => validateFile f.1 f.2),
         1)) ∧
    (∀ files : List (String × String),
      ((validateSchemas files).2 = 0 ↔
        ∀ r ∈ (validateSchemas files).1, r.valid = true) ∧
      ((validateSchemas files).2 ≠ 0 ↔
        ∃ r ∈ (validateSchemas files).1, r.valid = false)) := by
  constructor
  · intro pre bad suf hjson hparse
    have hbad : validateFile bad.1 bad.2 = ⟨bad.1, false, [VErr.invalidJson]⟩ := by
      unfold validateFile
      rw [hparse]
    simp only [validateSchemas, List.filter_append, List.filter_cons, hjson, if_true,
      List.map_append, List.map_cons, hbad, Prod.mk.injEq, List.any_append, List.any_cons]
    refine ⟨trivial, ?_⟩
    rw [if_pos]
    simp
  · intro files
    have hres : (validateSchemas files).1 =
        (files.filter fun f => strEndsWith f.1 ".json").map
          (fun f => validateFile f.1 f.2) := rfl
    cases h : ((files.filter fun f => strEndsWith f.1 ".json").map
        fun f => validateFile f.1 f.2).any (fun r => !r.valid) with
    | true =>
      have hcode : (validateSchemas files).2 = 1 := by
        show (if (((files.filter fun f => strEndsWith f.1 ".json").map
            (fun f => validateFile f.1 f.2)).any fun r => !r.valid) = true
          then 1 else 0) = 1
        rw [h]
        simp
      rw [hres, hcode]
      rw [List.any_eq_true] at h
      obtain ⟨r, hr, hv⟩ := h
      simp only [Bool.not_eq_true'] at hv
      constructor
      · constructor
        · intro habs
          exact absurd habs one_ne_zero
        · intro hall
          exact absurd (hall r hr) (by simp [hv])
      · constructor
        · intro _
          exact ⟨r, hr, hv⟩
        · intro _
          exact one_ne_zero
    | false =>
      have hcode : (validateSchemas files).2 = 0 := by
        show (if (((files.filter fun f => strEndsWith f.1 ".json").map
            (fun f => validateFile f.1 f.2)).any fun r => !r.valid) = true
          then 1 else 0) = 0
        rw [h]
        simp
      rw [hres, hcode]
      rw [List.any_eq_false] at h
      constructor
      · constructor
        · intro _ r hr
          simpa using h r hr
        · intro _
          rfl
      · constructor
        · intro habs
          exact absurd rfl habs
        · rintro ⟨r, hr, hv⟩
          have := h r hr
          simp [hv] at this

/-- Witness for C5: a three-file directory whose middle file is
malformed still yields results for all three files and exits with
status one. -/
theorem claim_C5_witness :
    validateSchemas
        ([("good.json", "\x7b\"@context\":\"https://schema.org\"\x7d")] ++
          ("bad.json", "nope") :: [("tail.json", "true")]) =
      ([⟨"good.json", true, []⟩, ⟨"bad.json", false, [VErr.invalidJson]⟩,
        ⟨"tail.json", false, [VErr.notObject]⟩], 1) :=
  (claim_C5.1 [("good.json", "\x7b\"@context\":\"https://schema.org\"\x7d")]
      ("bad.json", "nope") [("tail.json", "true")] rfl rfl).trans (by rfl)

/-- A dollar-free replacement template is emitted verbatim by
GetSubstitution. -/
theorem getSubstitution_no_dollar (matched before after : List Char) :
    ∀ repl, '$' ∉ repl → getSubstitution matched before after repl = repl := by
  intro repl
  induction repl with
  | nil => intro _; rfl
  | cons c rest ih =>
    intro h
    have hc : c ≠ '$' := fun hh => h (by simp [hh])
    have hrest : '$' ∉ rest := fun hh => h (by simp [hh])
    rw [getSubstitution.eq_def]
    simp only [if_neg hc]
    rw [ih hrest]

/-- With a dollar-free replacement value, the JavaScript global replace
coincides with literal global replacement. -/
theorem replaceGAux_eq_lit (pat repl : List Char) (hrepl : '$' ∉ repl) :
    ∀ fuel before s, replaceGAux pat repl fuel before s = replaceLitAux pat repl fuel s := by
  intro fuel
  induction fuel with
  | zero => intro before s; rfl
  | succ f ih =>
    intro before s
    cases s with
    | nil => rfl
    | cons c cs =>
      simp only [replaceGAux, replaceLitAux]
      by_cases hm : isPre pat (c :: cs) = true
      · rw [if_pos hm, if_pos hm, getSubstitution_no_dollar _ _ _ _ hrepl, ih]
      · rw [if_neg hm, if_neg hm, ih]

/-- Wrapper form of the previous lemma. -/
theorem replaceGlobal_eq_lit (s pat repl : List Char) (h : '$' ∉ repl) :
    replaceGlobal s pat repl = replaceLit s pat repl := by
  unfold replaceGlobal replaceLit
  by_cases hp : pat = []
  · rw [if_pos hp, if_pos hp]
  · rw [if_neg hp, if_neg hp, replaceGAux_eq_lit pat repl h]

/-- A pattern that does not occur in the input leaves the scan
unchanged. -/
theorem replaceGAux_no_occur (pat repl : List Char) :
    ∀ fuel before s, hasSubstr pat s = false → replaceGAux pat repl fuel before s = s := by
  intro fuel
  induction fuel with
  | zero => intro before s _; rfl
  | succ f ih =>
    intro before s h
    cases s with
    | nil => rfl
    | cons c cs =>
      have hunf : hasSubstr pat (c :: cs) = (isPre pat (c :: cs) || hasSubstr pat cs) := rfl
      cases hpre : isPre pat (c :: cs) with
      | true =>
        exfalso
        rw [hunf, hpre] at h
        simp at h
      | false =>
        have h2 : hasSubstr pat cs = false := by
          rw [hunf, hpre] at h
          simpa using h
        simp only [replaceGAux, hpre, Bool.false_eq_true, if_false]
        rw [ih (before ++ [c]) cs h2]

/-- Wrapper form: a non-occurring pattern makes the global replace the
identity. -/
theorem replaceGlobal_no_occur (s pat repl : List Char) (h : hasSubstr pat s = false) :
    replaceGlobal s pat repl = s := by
  unfold replaceGlobal
  by_cases hp : pat = []
  · rw [if_pos hp]
  · rw [if_neg hp, replaceGAux_no_occur pat repl (s.length + 1) [] s h]

/-- Scanning a run of plain characters (no quote, no backslash, no
control character) inside a string literal consumes exactly that run up
to the closing quote. -/
theorem parseStrAux_plain :
    ∀ (v : List Char) (fuel : Nat) (rest : List Char),
      (∀ c ∈ v, c ≠ '"' ∧ c ≠ '\\' ∧ ¬(c.toNat < 32)) → v.length < fuel →
      parseStrAux fuel (v ++ '"' :: rest) = some (v, rest) := by
  intro v
  induction v with
  | nil =>
    intro fuel rest _ hlen
    obtain ⟨f, rfl⟩ : ∃ f, fuel = f + 1 := ⟨fuel - 1, by omega⟩
    rfl
  | cons c v ih =>
    intro fuel rest hv hlen
    obtain ⟨f, rfl⟩ : ∃ f, fuel = f + 1 := ⟨fuel - 1, by omega⟩
    have hc := hv c (by simp)
    show (if c = '"' then some ([], v ++ '"' :: rest)
      else if c = '\\' then _ else if c.toNat < 32 then none
      else (parseStrAux f (v ++ '"' :: rest)).map fun p => (c :: p.1, p.2)) = _
    rw [if_neg hc.1, if_neg hc.2.1, if_neg hc.2.2,
      ih f rest (fun a ha => hv a (by simp [ha])) (by simp at hlen; omega)]
    rfl

/-- A quoted plain string parses as a string value. -/
theorem parseV_str (fuel : Nat) (v rest : List Char)
    (hv : ∀ c ∈ v, c ≠ '"' ∧ c ≠ '\\' ∧ ¬(c.toNat < 32)) (hf : v.length + 2 ≤ fuel) :
    parseV fuel ('"' :: (v ++ '"' :: rest)) = some (.str (String.mk v), rest) := by
  obtain ⟨f, rfl⟩ : ∃ f, fuel = f + 1 := ⟨fuel - 1, by omega⟩
  show (parseStrAux f (v ++ '"' :: rest)).map (fun p => (Json.str (String.mk p.1), p.2)) = _
  rw [parseStrAux_plain v f rest hv (by omega)]
  rfl

/-- The member continuation at the closing brace. -/
theorem memberCont_close (fuel : Nat) (key : List Char) (v : Json) (hf : 1 ≤ fuel) :
    memberCont fuel key v ['\x7d'] = some ([(String.mk key, v)], []) := by
  obtain ⟨f, rfl⟩ : ∃ f, fuel = f + 1 := ⟨fuel - 1, by omega⟩
  rfl

/-- The member tail on a colon, a quoted plain value and the closing
brace. -/
theorem memberTail_frame (fuel : Nat) (key v : List Char)
    (hv : ∀ c ∈ v, c ≠ '"' ∧ c ≠ '\\' ∧ ¬(c.toNat < 32)) (hf : v.length + 4 ≤ fuel) :
    memberTail fuel key (':' :: '"' :: (v ++ '"' :: ['\x7d'])) =
      some ([(String.mk key, Json.str (String.mk v))], []) := by
  obtain ⟨f, rfl⟩ : ∃ f, fuel = f + 1 := ⟨fuel - 1, by omega⟩
  show (parseV f ('"' :: (v ++ '"' :: ['\x7d']))).bind
      (fun q => memberCont f key q.1 q.2) = _
  rw [parseV_str f v ['\x7d'] hv (by omega)]
  show memberCont f key (Json.str (String.mk v)) ['\x7d'] = _
  exact memberCont_close f key _ (by omega)

/-- The member list of a one-member object with plain key and plain
string value. -/
theorem parseMembers_frame (fuel : Nat) (key v : List Char)
    (hk : ∀ c ∈ key, c ≠ '"' ∧ c ≠ '\\' ∧ ¬(c.toNat < 32))
    (hv : ∀ c ∈ v, c ≠ '"' ∧ c ≠ '\\' ∧ ¬(c.toNat < 32))
    (hf : key.length + v.length + 8 ≤ fuel) :
    parseMembers fuel ('"' :: (key ++ '"' :: ':' :: '"' :: (v ++ '"' :: ['\x7d']))) =
      some ([(String.mk key, Json.str (String.mk v))], []) := by
  obtain ⟨f, rfl⟩ : ∃ f, fuel = f + 1 := ⟨fuel - 1, by omega⟩
  show (parseStrAux f (key ++ '"' :: ':' :: '"' :: (v ++ '"' :: ['\x7d']))).bind
      (fun p => memberTail f p.1 p.2) = _
  rw [parseStrAux_plain key f _ hk (by omega)]
  show memberTail f key (':' :: '"' :: (v ++ '"' :: ['\x7d'])) = _
  exact memberTail_frame f key v hv (by omega)

/-- The object body of a one-member object with plain key and plain
string value. -/
theorem parseObj_frame (fuel : Nat) (key v : List Char)
    (hk : ∀ c ∈ key, c ≠ '"' ∧ c ≠ '\\' ∧ ¬(c.toNat < 32))
    (hv : ∀ c ∈ v, c ≠ '"' ∧ c ≠ '\\' ∧ ¬(c.toNat < 32))
    (hf : key.length + v.length + 9 ≤ fuel) :
    parseObj fuel ('"' :: (key ++ '"' :: ':' :: '"' :: (v ++ '"' :: ['\x7d']))) =
      some (Json.obj [(String.mk key, Json.str (String.mk v))], []) := by
  obtain ⟨f, rfl⟩ : ∃ f, fuel = f + 1 := ⟨fuel - 1, by omega⟩
  show (parseMembers f ('"' :: (key ++ '"' :: ':' :: '"' :: (v ++ '"' :: ['\x7d'])))).map
      (fun p => (Json.obj p.1, p.2)) = _
  rw [parseMembers_frame f key v hk hv (by omega)]
  rfl

/-- A complete one-member object value with plain key and plain string
value. -/
theorem parseV_frame (fuel : Nat) (key v : List Char)
    (hk : ∀ c ∈ key, c ≠ '"' ∧ c ≠ '\\' ∧ ¬(c.toNat < 32))
    (hv : ∀ c ∈ v, c ≠ '"' ∧ c ≠ '\\' ∧ ¬(c.toNat < 32))
    (hf : key.length + v.length + 10 ≤ fuel) :
    parseV fuel ('\x7b' :: '"' :: (key ++ '"' :: ':' :: '"' :: (v ++ '"' :: ['\x7d']))) =
      some (Json.obj [(String.mk key, Json.str (String.mk v))], []) := by
  obtain ⟨f, rfl⟩ : ∃ f, fuel = f + 1 := ⟨fuel - 1, by omega⟩
  show parseObj f ('"' :: (key ++ '"' :: ':' :: '"' :: (v ++ '"' :: ['\x7d']))) = _
  exact parseObj_frame f key v hk hv (by omega)

/-- JSON.parse of a one-member object document with plain key and plain
string value. -/
theorem jsonParse_frame (key v : List Char)
    (hk : ∀ c ∈ key, c ≠ '"' ∧ c ≠ '\\' ∧ ¬(c.toNat < 32))
    (hv : ∀ c ∈ v, c ≠ '"' ∧ c ≠ '\\' ∧ ¬(c.toNat < 32)) :
    jsonParse (String.mk
        ('\x7b' :: '"' :: (key ++ '"' :: ':' :: '"' :: (v ++ '"' :: ['\x7d'])))) =
      some (Json.obj [(String.mk key, Json.str (String.mk v))]) := by
  have hlen : ('\x7b' :: '"' :: (key ++ '"' :: ':' :: '"' :: (v ++ '"' :: ['\x7d']))).length =
      key.length + v.length + 7 := by
    simp [List.length_append]
    omega
  simp only [jsonParse]
  rw [hlen,
    parseV_frame (4 * (key.length + v.length + 7) + 8) key v hk hv (by omega)]
  rfl

/-- Every character of the decimal rendering is plain for the string
scanner and is not a dollar. -/
theorem natRenderChars_plain (n : Nat) :
    ∀ c ∈ natRenderChars n, (c ≠ '"' ∧ c ≠ '\\' ∧ ¬(c.toNat < 32)) ∧ c ≠ '$' := by
  intro c hc
  unfold natRenderChars at hc
  by_cases h0 : n = 0
  · subst h0
    simp at hc
    subst hc
    decide
  · rw [if_neg h0, natToDigitsRev_eq (n + 1) n (by omega), List.mem_reverse,
      List.mem_map] at hc
    obtain ⟨d, hd, rfl⟩ := hc
    have hlt : d < 10 := Nat.digits_lt_base (by norm_num) hd
    interval_cases d <;> decide

/-- Applying replacement entries none of whose tokens occur in the text
leaves the text unchanged. -/
theorem applyReplacements_no_occur :
    ∀ (reps : List (String × String)) (s : List Char),
      (∀ kv ∈ reps, hasSubstr kv.1.data s = false) → applyReplacements s reps = s := by
  intro reps
  induction reps with
  | nil => intro s _; rfl
  | cons kv rest ih =>
    intro s h
    show applyReplacements (replaceGlobal s kv.1.data kv.2.data) rest = s
    rw [replaceGlobal_no_occur _ _ _ (h kv (by simp))]
    exact ih s (fun kv2 hm => h kv2 (by simp [hm]))

set_option maxHeartbeats 1600000 in
/-- The full Template Processor run on the year document at the sample
page: serialization, the eight no-op replacements, the year
substitution (dollar-free, hence literal), and the reparse. -/
theorem processSchema_yearEnv (year : Nat) :
    processSchema (yearEnv year) yearDoc =
      some (Json.obj [("copyrightYear", Json.str (natRender year))]) := by
  have hplain : ∀ c ∈ natRenderChars year, c ≠ '"' ∧ c ≠ '\\' ∧ ¬(c.toNat < 32) :=
    fun c hc => (natRenderChars_plain year c hc).1
  have hnd : '$' ∉ natRenderChars year :=
    fun hm => (natRenderChars_plain year '$' hm).2 rfl
  have hsplit : replacements (getPageMetadata (yearEnv year)) (natRender year) =
      (replacements (getPageMetadata (yearEnv year)) (natRender year)).take 8 ++
        (replacements (getPageMetadata (yearEnv year)) (natRender year)).drop 8 :=
    (List.take_append_drop 8 _).symm
  have happ : applyReplacements (stringify yearDoc)
      (replacements (getPageMetadata (yearEnv year)) (natRender year)) =
      applyReplacements (applyReplacements (stringify yearDoc)
          ((replacements (getPageMetadata (yearEnv year)) (natRender year)).take 8))
        ((replacements (getPageMetadata (yearEnv year)) (natRender year)).drop 8) := by
    conv_lhs => rw [hsplit]
    simp only [applyReplacements, List.foldl_append]
  have hfst : ((replacements (getPageMetadata (yearEnv year)) (natRender year)).take 8).map
      Prod.fst = ["\x7b\x7bCURRENT_URL\x7d\x7d", "\x7b\x7bPAGE_TITLE\x7d\x7d",
        "\x7b\x7bMETA_DESCRIPTION\x7d\x7d", "\x7b\x7bOG_IMAGE\x7d\x7d",
        "\x7b\x7bPUBLISHED_DATE\x7d\x7d", "\x7b\x7bMODIFIED_DATE\x7d\x7d",
        "\x7b\x7bAUTHOR\x7d\x7d", "\x7b\x7bLANGUAGE\x7d\x7d"] := rfl
  have hno : ∀ kv ∈ (replacements (getPageMetadata (yearEnv year)) (natRender year)).take 8,
      hasSubstr kv.1.data (stringify yearDoc) = false := by
    intro kv hm
    have hmem := List.mem_map_of_mem Prod.fst hm
    rw [hfst] at hmem
    simp only [List.mem_cons, List.not_mem_nil, or_false] at hmem
    rcases hmem with h | h | h | h | h | h | h | h <;> rw [h] <;> decide
  have hdrop : (replacements (getPageMetadata (yearEnv year)) (natRender year)).drop 8 =
      [("\x7b\x7bYEAR\x7d\x7d", natRender year)] := rfl
  have h1 : applyReplacements (stringify yearDoc)
      (replacements (getPageMetadata (yearEnv year)) (natRender year)) =
      replaceGlobal (stringify yearDoc) ("\x7b\x7bYEAR\x7d\x7d".data)
        (natRenderChars year) := by
    rw [happ, applyReplacements_no_occur _ _ hno, hdrop]
    rfl
  have h2 : replaceLit (stringify yearDoc) ("\x7b\x7bYEAR\x7d\x7d".data)
      (natRenderChars year) =
      '\x7b' :: '"' :: ("copyrightYear".data ++ '"' :: ':' :: '"' ::
        (natRenderChars year ++ '"' :: ['\x7d'])) := rfl
  calc processSchema (yearEnv year) yearDoc
      = jsonParse (String.mk (applyReplacements (stringify yearDoc)
          (replacements (getPageMetadata (yearEnv year)) (natRender year)))) := rfl
    _ = jsonParse (String.mk (replaceGlobal (stringify yearDoc)
          ("\x7b\x7bYEAR\x7d\x7d".data) (natRenderChars year))) := by rw [h1]
    _ = jsonParse (String.mk (replaceLit (stringify yearDoc)
          ("\x7b\x7bYEAR\x7d\x7d".data) (natRenderChars year))) := by
            rw [replaceGlobal_eq_lit _ _ _ hnd]
    _ = jsonParse (String.mk ('\x7b' :: '"' :: ("copyrightYear".data ++ '"' :: ':' :: '"' ::
          (natRenderChars year ++ '"' :: ['\x7d'])))) := by rw [h2]
    _ = some (Json.obj [("copyrightYear", Json.str (natRender year))]) :=
          jsonParse_frame "copyrightYear".data (natRenderChars year) (by decide) hplain

/-- C3 as stated is false: the metadata value is inserted as a
JavaScript replacement string, not as raw literal text.  With the page
title set to two dollars, the inserted text is a single dollar, whereas
raw literal insertion (rawProcessSchema) keeps both. -/
theorem claim_C3_counterexample :
    processSchema dollarEnv dollarDoc = some (Json.obj [("t", Json.str "$")]) ∧
    rawProcessSchema dollarEnv dollarDoc = some (Json.obj [("t", Json.str "$$")]) ∧
    processSchema dollarEnv dollarDoc ≠ rawProcessSchema dollarEnv dollarDoc := by
  have h1 : processSchema dollarEnv dollarDoc = some (Json.obj [("t", Json.str "$")]) := rfl
  have h2 : rawProcessSchema dollarEnv dollarDoc =
      some (Json.obj [("t", Json.str "$$")]) := rfl
  refine ⟨h1, h2, ?_⟩
  rw [h1, h2]
  simp

/-- C3 amended: the Template Processor serializes the document, then
for each placeholder token in table order replaces every occurrence
with the metadata value inserted under JavaScript replacement-string
semantics — which coincides with raw literal insertion whenever the
value contains no dollar character — and reparses; tokens not occurring
in the text are no-ops, and a document whose field holds the year token
comes back with that field equal to the current year rendered in
decimal as a string. -/
theorem claim_C3_amended :
    (∀ s pat v : List Char, '$' ∉ v → replaceGlobal s pat v = replaceLit s pat v) ∧
    (∀ s pat v : List Char, hasSubstr pat s = false → replaceGlobal s pat v = s) ∧
    (∀ year : Nat, processSchema (yearEnv year) yearDoc =
      some (Json.obj [("copyrightYear", Json.str (natRender year))])) :=
  ⟨replaceGlobal_eq_lit, replaceGlobal_no_occur, processSchema_yearEnv⟩

/-- Witness for the amended C3 at concrete strings and the concrete
year. -/
theorem claim_C3_amended_witness :
    replaceGlobal "ab".data "b".data "X".data = replaceLit "ab".data "b".data "X".data ∧
    replaceGlobal "ab".data "zz".data "X".data = "ab".data ∧
    processSchema (yearEnv 2026) yearDoc =
      some (Json.obj [("copyrightYear", Json.str (natRender 2026))]) :=
  ⟨claim_C3_amended.1 "ab".data "b".data "X".data (by decide),
    claim_C3_amended.2.1 "ab".data "zz".data "X".data (by decide),
    claim_C3_amended.2.2 2026⟩

/-- Witness for C9 at the sample environment, whose page has no
published-time meta element. -/
theorem claim_C9_witness :
    ((replacements (getPageMetadata sampleEnv) (natRender sampleEnv.nowYear)).lookup
        "\x7b\x7bPUBLISHED_DATE\x7d\x7d" = some (getPageMetadata sampleEnv).modified) ∧
    ((replacements (getPageMetadata sampleEnv) (natRender sampleEnv.nowYear)).lookup
        "\x7b\x7bPUBLISHED_DATE\x7d\x7d" =
      (replacements (getPageMetadata sampleEnv) (natRender sampleEnv.nowYear)).lookup
        "\x7b\x7bMODIFIED_DATE\x7d\x7d") ∧
    (getPageMetadata sampleEnv).modified = sampleEnv.nowISO :=
  claim_C9 sampleEnv rfl

end Recostseg
